import Mathlib

/-!
Verification of the icequery monitoring client (icequery.cpp and its
revisions): the stats-record parser (NodeInfo::create), the message
ingestion loop of main() with its hostId high-water mark, the aggregation
(coreCount / nodeCount) and the table renderer (renderTable).

Strings are modelled as lists of characters (List Char); std::string
indices and substrings become list positions, List.take and List.drop.
Machine integers: int is Int with the explicit range check of std::stoi,
uint32_t fields are Nat reduced modulo 2^32 at the points where the C++
converts or wraps.  Fallible code (std::stoi throwing) is modelled with
Except: an uncaught exception surfaces as an error value that every caller
propagates, exactly as the exception would unwind out of main.
-/

namespace IceQuery

/-- Exit code EXIT_CONNECTION_ERR from icequery.cpp. -/
def EXIT_CONNECTION_ERR : Nat := 2

/-- Exit code EXIT_NO_DATA from icequery.cpp. -/
def EXIT_NO_DATA : Nat := 3

/-- C tolower in the C locale, as applied char-by-char by toLower():
only ASCII capitals are changed. -/
def asciiToLower (c : Char) : Char :=
  if 'A' ≤ c ∧ c ≤ 'Z' then Char.ofNat (c.toNat + 32) else c

/-- toLower() from icequery.cpp: std::transform over the string with tolower. -/
def lowerStr (s : List Char) : List Char := s.map asciiToLower

/-- Position of the first occurrence of a character, i.e.
std::string::find(c, pos) with positions taken relative to pos
(the parse loop of NodeInfo::create only ever uses such differences). -/
def idxOf? (c : Char) : List Char → Option Nat
  | [] => none
  | x :: xs => if x = c then some 0 else (idxOf? c xs).map (· + 1)

/-- The whitespace characters skipped by strtol (isspace in the C locale). -/
def isCSpace (c : Char) : Bool :=
  c = ' ' || c = '\t' || c = '\n' || c = '\x0b' || c = '\x0c' || c = '\r'

/-- The exceptions std::stoi can throw. -/
inductive StoiErr
  | invalidArgument
  | outOfRange
deriving DecidableEq, Repr

/-- Numeric value of a digit run. -/
def digitsVal (ds : List Char) : Nat :=
  ds.foldl (fun a c => a * 10 + (c.toNat - '0'.toNat)) 0

/-- std::stoi(value) with the default base 10: skip leading whitespace,
an optional sign, then decimal digits; std::invalid_argument when no
digits follow, std::out_of_range when the value does not fit in int. -/
def stoi (s : List Char) : Except StoiErr Int :=
  let s1 := s.dropWhile isCSpace
  let signed : Bool × List Char :=
    match s1 with
    | '-' :: t => (true, t)
    | '+' :: t => (false, t)
    | t => (false, t)
  let ds := signed.2.takeWhile Char.isDigit
  if ds.isEmpty then .error .invalidArgument
  else
    let v : Int := (if signed.1 then -1 else 1) * (digitsVal ds : Int)
    if v < -(2 ^ 31 : Int) || v > (2 ^ 31 : Int) - 1 then .error .outOfRange
    else .ok v

/-- NodeInfo: one node's parsed stats record.  m_hostId and m_maxJobs are
uint32_t, kept as Nat (maxJobs is stored through an int → uint32_t
conversion, i.e. modulo 2^32). -/
structure NodeInfo where
  hostId : Nat
  name : List Char
  ip : List Char
  maxJobs : Nat
  noRemote : Bool
  offline : Bool
  platform : List Char
deriving DecidableEq, Repr

/-- The private NodeInfo(hostId) constructor: all other members default. -/
def mkNode (hostId : Nat) : NodeInfo :=
  { hostId := hostId, name := [], ip := [], maxJobs := 0
    noRemote := false, offline := false, platform := [] }

/-- NodeInfo::isValid(). -/
def nodeValid (n : NodeInfo) : Bool :=
  n.hostId != 0 && !n.name.isEmpty && !n.ip.isEmpty &&
  n.maxJobs != 0 && !n.platform.isEmpty

/-- One iteration body of the parse loop in NodeInfo::create, applied to the
current line segment (the characters from linePos up to the next newline,
or to the end of the blob).  The C++ guard
colonPos != npos && !(nextLinePos != npos && colonPos > nextLinePos)
says exactly that a colon occurs inside the current segment; key is the
text before the first colon (lowercased), value the rest of the segment. -/
def processSeg (res : NodeInfo) (seg : List Char) : Except StoiErr NodeInfo :=
  match idxOf? ':' seg with
  | none => .ok res
  | some cp =>
    let key := lowerStr (seg.take cp)
    let value := seg.drop (cp + 1)
    if key = "name".toList then .ok { res with name := value }
    else if key = "ip".toList then .ok { res with ip := value }
    else if key = "maxjobs".toList then
      (stoi value).map (fun v => { res with maxJobs := (v % (2 ^ 32 : Int)).toNat })
    else if key = "noremote".toList then
      .ok { res with noRemote := lowerStr value = "true".toList }
    else if key = "state".toList then
      .ok { res with offline := lowerStr value = "offline".toList }
    else if key = "platform".toList then .ok { res with platform := value }
    else .ok res

/-- The while(true) scan of NodeInfo::create over the remainder of the blob,
with explicit fuel (each iteration consumes the segment up to and including
the next newline, so stats.length + 1 fuel always suffices; the C++ loop
breaks when no further newline exists). -/
def createLoopF : Nat → NodeInfo → List Char → Except StoiErr NodeInfo
  | 0, res, _ => .ok res
  | fuel + 1, res, s =>
    match idxOf? '\n' s with
    | none => processSeg res s
    | some np => do
      let res' ← processSeg res (s.take np)
      createLoopF fuel res' (s.drop (np + 1))

/-- The full line scan of NodeInfo::create. -/
def createLoop (res : NodeInfo) (s : List Char) : Except StoiErr NodeInfo :=
  createLoopF (s.length + 1) res s

/-- NodeInfo::create(hostId, stats): reject hostId 0, scan the blob, and
expose the record only if isValid; absent (none) otherwise.  An error value
is the uncaught std::invalid_argument / std::out_of_range from std::stoi. -/
def nodeInfoCreate (hostId : Nat) (stats : List Char) : Except StoiErr (Option NodeInfo) :=
  if hostId = 0 then .ok none
  else
    (createLoop (mkNode hostId) stats).map
      (fun res => if nodeValid res then some res else none)

/-! ## Table renderer (renderTable) -/

/-- Column alignment. -/
inductive Alignment
  | left
  | right
  | center
deriving DecidableEq, Repr

/-- ColumnHeader from icequery.cpp. -/
structure ColumnHeader where
  alignment : Alignment
  treatAsUnicode : Bool
  name : String
deriving Repr

/-- Fallback header for out-of-range indexing (never reached when the
column index is in range). -/
def defaultCH : ColumnHeader := ⟨Alignment.left, false, ""⟩

/-- A run of n spaces, as built by std::string append/insert of ' '. -/
def spaces (n : Nat) : String := String.mk (List.replicate n ' ')

/-- The column separator emitted between cells: a single space in plain
mode, otherwise a padded vertical line (VERT_LINE_LO when ascii,
VERT_LINE_HI otherwise). -/
def sepStr (plain ascii : Bool) : String :=
  if plain then " " else if ascii then " | " else " │ "

/-- The transliterator actually in effect: renderTable only creates one
when ascii is requested (and creation may fail, modelled by none). -/
def effTrans (ascii : Bool) (trans : Option (String → String)) :
    Option (String → String) :=
  if ascii then trans else none

/-- Row count: strings.size() / columnCount. -/
def rowCount (header : List ColumnHeader) (strings : List String) : Nat :=
  strings.length / header.length

/-- origStr of the measuring loop: the header title for row 0, otherwise
the flat strings list at index columnCount * (r - 1) + c. -/
def cellSource (header : List ColumnHeader) (strings : List String)
    (c r : Nat) : String :=
  if r = 0 then (header.getD c defaultCH).name
  else strings.getD (header.length * (r - 1) + c) ""

/-- The stored cell text before margins: for treatAsUnicode columns the
cell is transliterated when a transliterator exists, otherwise kept as is.
In this model display width is the codepoint count String.length, so the
recorded length lens is the length of exactly this string. -/
def shapedCell (header : List ColumnHeader) (strings : List String)
    (ascii : Bool) (trans : Option (String → String)) (c r : Nat) : String :=
  let orig := cellSource header strings c r
  if (header.getD c defaultCH).treatAsUnicode then
    match effTrans ascii trans with
    | some f => f orig
    | none => orig
  else orig

/-- The cell after the 1-char margin applied to the first and to the last
column (skipped in plain mode); this is data of the C++ and its length is
lens. -/
def margined (header : List ColumnHeader) (strings : List String)
    (plain ascii : Bool) (trans : Option (String → String)) (c r : Nat) : String :=
  let s := shapedCell header strings ascii trans c r
  if !plain && c = 0 then " " ++ s
  else if !plain && c = header.length - 1 then s ++ " "
  else s

/-- lens of the C++: the measured display width of the margined cell. -/
def cellLen (header : List ColumnHeader) (strings : List String)
    (plain ascii : Bool) (trans : Option (String → String)) (c r : Nat) : Nat :=
  (margined header strings plain ascii trans c r).length

/-- colMaxLens: the running maximum the measuring loop keeps per column
over the header row and all data rows. -/
def colMaxLen (header : List ColumnHeader) (strings : List String)
    (plain ascii : Bool) (trans : Option (String → String)) (c : Nat) : Nat :=
  (List.range (rowCount header strings + 1)).foldl
    (fun m r => max m (cellLen header strings plain ascii trans c r)) 0

/-- The padding switch of renderTable: pad str to maxLen according to the
alignment (center puts the odd leftover space after the text). -/
def padCell (a : Alignment) (maxLen : Nat) (s : String) : String :=
  if s.length < maxLen then
    let d := maxLen - s.length
    match a with
    | Alignment.left => s ++ spaces d
    | Alignment.right => spaces d ++ s
    | Alignment.center => spaces (d / 2) ++ s ++ spaces (d - d / 2)
  else s

/-- The cell as it appears in the output. -/
def paddedCell (header : List ColumnHeader) (strings : List String)
    (plain ascii : Bool) (trans : Option (String → String)) (c r : Nat) : String :=
  padCell (header.getD c defaultCH).alignment
    (colMaxLen header strings plain ascii trans c)
    (margined header strings plain ascii trans c r)

/-- One output row: cells joined left to right, a separator before every
cell but the first. -/
def rowLine (header : List ColumnHeader) (strings : List String)
    (plain ascii : Bool) (trans : Option (String → String)) (r : Nat) : String :=
  (List.range header.length).foldl
    (fun acc c =>
      acc ++ (if 0 < c then sepStr plain ascii else "")
          ++ paddedCell header strings plain ascii trans c r) ""

/-- HOR_LINE run of length n (HOR_LINE_LO when ascii, HOR_LINE_HI otherwise). -/
def horRun (ascii : Bool) (n : Nat) : String :=
  String.mk (List.replicate n (if ascii then '-' else '─'))

/-- The glyph triple between the per-column runs of the header separator. -/
def crossSeg (ascii : Bool) : String := if ascii then "-+-" else "─┼─"

/-- The horizontal separator line drawn below the header row. -/
def headerSepLine (header : List ColumnHeader) (strings : List String)
    (plain ascii : Bool) (trans : Option (String → String)) : String :=
  (List.range header.length).foldl
    (fun acc c =>
      (if 0 < c then acc ++ crossSeg ascii else acc)
        ++ horRun ascii (colMaxLen header strings plain ascii trans c)) ""

/-- renderTable from icequery.cpp, assembled row by row; after row 0 the
header separator line is emitted unless plain. -/
def renderTable (header : List ColumnHeader) (strings : List String)
    (plain ascii : Bool) (trans : Option (String → String)) : String :=
  (List.range (rowCount header strings + 1)).foldl
    (fun acc r =>
      let acc2 := acc ++ rowLine header strings plain ascii trans r ++ "\n"
      if r = 0 && !plain then
        acc2 ++ headerSepLine header strings plain ascii trans ++ "\n"
      else acc2) ""

/-! ## Ingestion loop of main() -/

/-- One message obtained from MsgChannel::get_msg() inside the drain loop:
a stats update (M_MON_STATS with hostid and statmsg), the end-of-session
message (M_END), any other ignored type, or a null result. -/
inductive RawMsg
  | stats (hostid : Nat) (blob : List Char)
  | endOfSession
  | otherMsg
  | nullMsg
deriving Repr

/-- One iteration of the outer poll loop: poll() returned an error, zero
(timeout), or readiness with the messages the drain loop then retrieves. -/
inductive PollEvent
  | pollError
  | pollTimeout
  | pollReady (msgs : List RawMsg)
deriving Repr

/-- The loop state of main(): the accepted records and the high-water mark
hostIdMax. -/
structure IngestState where
  nodes : List NodeInfo
  hostIdMax : Nat
deriving DecidableEq, Repr

/-- The initial state: empty node vector, hostIdMax 0. -/
def initState : IngestState := ⟨[], 0⟩

/-- An early termination of main: a return with an exit code, or the
uncaught exception escaping from NodeInfo::create. -/
inductive Abort
  | exitCode (c : Nat)
  | uncaught (e : StoiErr)
deriving DecidableEq, Repr

/-- The inner drain loop of main() over the retrieved messages, carrying
wasPollUseful: a null message and M_END return EXIT_CONNECTION_ERR; a
stats message is parsed, and the record is appended (and hostIdMax
updated, the iteration marked useful) exactly when it is valid and its
hostId exceeds hostIdMax; other messages are ignored. -/
def drainMsgs : List RawMsg → IngestState → Bool → Except Abort (IngestState × Bool)
  | [], st, useful => .ok (st, useful)
  | m :: ms, st, useful =>
    match m with
    | .nullMsg => .error (.exitCode EXIT_CONNECTION_ERR)
    | .endOfSession => .error (.exitCode EXIT_CONNECTION_ERR)
    | .otherMsg => drainMsgs ms st useful
    | .stats hid blob =>
      match nodeInfoCreate hid blob with
      | .error e => .error (.uncaught e)
      | .ok none => drainMsgs ms st useful
      | .ok (some n) =>
        if st.hostIdMax < n.hostId then
          drainMsgs ms ⟨st.nodes ++ [n], n.hostId⟩ true
        else drainMsgs ms st useful

/-- USELESS_POLLS_IN_A_ROW_MAX. -/
def USELESS_POLLS_MAX : Nat := 3

/-- Result of the outer poll loop: it fell through its condition
(finished), returned early (aborted), or the supplied event list ended
while the program was still waiting in poll(). -/
inductive LoopRes
  | finished (st : IngestState)
  | aborted (a : Abort)
  | stillWaiting (st : IngestState) (streak : Nat)
deriving Repr

/-- The outer do/while poll loop of main(): a poll error returns
EXIT_CONNECTION_ERR; a timeout (pollRes 0) leaves the loop; readiness
drains the messages, resets or increments uselessPollsInARow, and the loop
continues while that streak stays below USELESS_POLLS_IN_A_ROW_MAX. -/
def pollLoop : List PollEvent → IngestState → Nat → LoopRes
  | [], st, streak => .stillWaiting st streak
  | ev :: rest, st, streak =>
    match ev with
    | .pollError => .aborted (.exitCode EXIT_CONNECTION_ERR)
    | .pollTimeout => .finished st
    | .pollReady msgs =>
      match drainMsgs msgs st false with
      | .error a => .aborted a
      | .ok (st', useful) =>
        let streak' := if useful then 0 else streak + 1
        if streak' < USELESS_POLLS_MAX then pollLoop rest st' streak'
        else .finished st'

/-! ## Aggregation and the tail of main() -/

/-- The std::accumulate of main(): uint32_t core total over the records
with noRemote and offline both false (uint32_t addition wraps mod 2^32). -/
def coreCount (nodes : List NodeInfo) : Nat :=
  nodes.foldl
    (fun count n =>
      if !n.noRemote && !n.offline then (count + n.maxJobs) % 2 ^ 32
      else count) 0

/-- The display filter of main(): a node is kept unless excluded by
no-offline / no-noremote. -/
def keepNode (noOffline noNoRemote : Bool) (n : NodeInfo) : Bool :=
  (!noOffline || !n.offline) && (!noNoRemote || !n.noRemote)

/-- The std::count_if of main(). -/
def nodeCount (noOffline noNoRemote : Bool) (nodes : List NodeInfo) : Nat :=
  (nodes.filter (keepNode noOffline noNoRemote)).length

/-- The aggregation block of main(): coreCount (which ignores the filter
flags) and nodeCount (which applies them). -/
def aggregate (noOffline noNoRemote : Bool) (nodes : List NodeInfo) : Nat × Nat :=
  (coreCount nodes, nodeCount noOffline noNoRemote nodes)

/-- Configuration corresponding to the global flags of icequery.cpp that
the ingestion/aggregation/rendering path reads, plus the external
transliteration capability. -/
structure Config where
  noOffline : Bool
  noNoRemote : Bool
  noTable : Bool
  brief : Bool
  plain : Bool
  ascii : Bool
  trans : Option (String → String)

/-- The fixed 7-column header of the output table. -/
def mainHeader : List ColumnHeader :=
  [⟨Alignment.right , false, "Node #"⟩,
   ⟨Alignment.center, true , "Offline?"⟩,
   ⟨Alignment.center, true , "No remote?"⟩,
   ⟨Alignment.left  , true , "Name"⟩,
   ⟨Alignment.left  , false, "IP"⟩,
   ⟨Alignment.right , false, "Cores"⟩,
   ⟨Alignment.left  , false, "Platform"⟩]

/-- TICK / NO_TICK glyph for the boolean columns. -/
def tick (ascii : Bool) (b : Bool) : String :=
  if b then (if ascii then "X" else "√") else ""

/-- The flat row strings built for renderTable: seven entries per node
that passes the display filter, in table order. -/
def rowStrings (cfg : Config) (nodes : List NodeInfo) : List String :=
  nodes.foldl
    (fun acc n =>
      if keepNode cfg.noOffline cfg.noNoRemote n then
        acc ++ [toString n.hostId, tick cfg.ascii n.offline,
                tick cfg.ascii n.noRemote, String.mk n.name, String.mk n.ip,
                toString n.maxJobs, String.mk n.platform]
      else acc) []

/-- How a run of main() ends: a return with exit code (carrying the table
it printed, if any), or the crash from the uncaught std::stoi exception. -/
inductive MainOutcome
  | exited (code : Nat) (table : Option String)
  | crashed (e : StoiErr)

/-- The tail of main() after the poll loop: with no nodes, or every node
excluded by the display filters, return EXIT_NO_DATA; otherwise aggregate
and print (the table only when neither brief nor no-table). -/
def finishUp (cfg : Config) (st : IngestState) : MainOutcome :=
  if st.nodes.isEmpty
      || st.nodes.all (fun n => (cfg.noOffline && n.offline)
                               || (cfg.noNoRemote && n.noRemote)) then
    .exited EXIT_NO_DATA none
  else
    if cfg.brief || cfg.noTable then .exited 0 none
    else
      .exited 0 (some (renderTable mainHeader (rowStrings cfg st.nodes)
                        cfg.plain cfg.ascii cfg.trans))

/-- main() from the login onward, driven by a list of poll events: run the
poll loop from the empty state and finish up, none when the event list
ends while the program is still waiting. -/
def runMain (cfg : Config) (evs : List PollEvent) : Option MainOutcome :=
  match pollLoop evs initState 0 with
  | .stillWaiting _ _ => none
  | .aborted (.exitCode c) => some (.exited c none)
  | .aborted (.uncaught e) => some (.crashed e)
  | .finished st => some (finishUp cfg st)

/-! ## Observation helpers for the statements -/

/-- Whether one line segment carries the given (lowercased) key: a colon
occurs and the lowercased text before the first colon equals the key. -/
def segHasKey (key : List Char) (seg : List Char) : Bool :=
  match idxOf? ':' seg with
  | none => false
  | some cp => lowerStr (seg.take cp) = key

/-- Whether any line of the blob carries the given key, scanned with the
same segmentation as the parse loop (fuel as in createLoopF). -/
def hasKeyF : Nat → List Char → List Char → Bool
  | 0, _, _ => false
  | fuel + 1, key, s =>
    match idxOf? '\n' s with
    | none => segHasKey key s
    | some np => segHasKey key (s.take np) || hasKeyF fuel key (s.drop (np + 1))

/-- Whether any line of the blob carries the given key. -/
def hasKey (key : List Char) (s : List Char) : Bool :=
  hasKeyF (s.length + 1) key s

/-- Whether a parse outcome is the absent result (a returned null
unique_ptr): true only for a normal return with no record — not for an
escaping exception, not for a returned record. -/
def isAbsent : Except StoiErr (Option NodeInfo) → Bool
  | .ok none => true
  | _ => false

/-- The ingestion-loop invariant: hostIds of the collected records are
strictly increasing in insertion order, every collected hostId is at most
the high-water mark, and the mark equals the hostId of the last accepted
record (0 while no record is accepted). -/
def stateInv (st : IngestState) : Prop :=
  (st.nodes.map NodeInfo.hostId).Chain' (· < ·) ∧
  (∀ n ∈ st.nodes, n.hostId ≤ st.hostIdMax) ∧
  st.hostIdMax = (st.nodes.map NodeInfo.hostId).getLastD 0

/-! ## Lemmas about the parser embedding -/

theorem ok_bind {ε α β : Type} (a : α) (f : α → Except ε β) :
    (Except.ok a >>= f) = f a := rfl

theorem error_bind {ε α β : Type} (e : ε) (f : α → Except ε β) :
    ((Except.error e : Except ε α) >>= f) = Except.error e := rfl

theorem idxOf?_lt_length {c : Char} :
    ∀ {s : List Char} {n : Nat}, idxOf? c s = some n → n < s.length := by
  intro s
  induction s with
  | nil => intro n h; simp [idxOf?] at h
  | cons x xs ih =>
    intro n h
    by_cases hx : x = c
    · simp [idxOf?, hx] at h
      simp [← h]
    · simp only [idxOf?, if_neg hx, Option.map_eq_some'] at h
      obtain ⟨m, hm, rfl⟩ := h
      have := ih hm
      simp only [List.length_cons]
      omega

theorem idxOf?_append_cons {c : Char} :
    ∀ (pre suf : List Char), c ∉ pre →
      idxOf? c (pre ++ c :: suf) = some pre.length := by
  intro pre
  induction pre with
  | nil => intro suf _; simp [idxOf?]
  | cons x xs ih =>
    intro suf hni
    have hx : x ≠ c := fun h => hni (by simp [h])
    have hxs : c ∉ xs := fun h => hni (by simp [h])
    simp [idxOf?, hx, ih suf hxs]

theorem createLoopF_fuel :
    ∀ (fuel : Nat) (res : NodeInfo) (s : List Char), s.length < fuel →
      createLoopF fuel res s = createLoopF (s.length + 1) res s := by
  intro fuel
  induction fuel using Nat.strong_induction_on with
  | _ fuel ih =>
    intro res s hlt
    match fuel with
    | 0 => omega
    | fuel + 1 =>
      cases hnp : idxOf? '\n' s with
      | none => simp [createLoopF, hnp]
      | some np =>
        have hnp_lt : np < s.length := idxOf?_lt_length hnp
        have hdl : (s.drop (np + 1)).length = s.length - (np + 1) := by
          simp
        simp only [createLoopF, hnp]
        cases hps : processSeg res (s.take np) with
        | error e => rfl
        | ok res' =>
          simp only [hps, ok_bind]
          rw [ih fuel (by omega) res' (s.drop (np + 1)) (by omega),
              ih (s.length) (by omega) res' (s.drop (np + 1)) (by omega)]

theorem processSeg_hostId {res : NodeInfo} {seg : List Char} {r' : NodeInfo}
    (h : processSeg res seg = .ok r') : r'.hostId = res.hostId := by
  unfold processSeg at h
  cases hc : idxOf? ':' seg with
  | none => simp [hc] at h; simp [← h]
  | some cp =>
    simp only [hc] at h
    split at h
    · cases h; rfl
    · split at h
      · cases h; rfl
      · split at h
        · cases hst : stoi (seg.drop (cp + 1)) with
          | error e => simp [hst, Except.map] at h
          | ok v => simp [hst, Except.map] at h; simp [← h]
        · split at h
          · cases h; rfl
          · split at h
            · cases h; rfl
            · split at h
              · cases h; rfl
              · cases h; rfl

theorem processSeg_name {res : NodeInfo} {seg : List Char} {r' : NodeInfo}
    (hk : segHasKey "name".toList seg = false)
    (h : processSeg res seg = .ok r') : r'.name = res.name := by
  unfold processSeg at h
  unfold segHasKey at hk
  cases hc : idxOf? ':' seg with
  | none => simp [hc] at h; simp [← h]
  | some cp =>
    simp only [hc] at h hk
    have hne : ¬(lowerStr (seg.take cp) = "name".toList) := by
      simpa using hk
    split_ifs at h with h1 h2 h3 h4 h5
    all_goals first
      | (cases h; rfl)
      | (cases hst : stoi (seg.drop (cp + 1)) with
          | error e => simp [hst, Except.map] at h
          | ok v =>
            simp only [hst, Except.map] at h
            cases h; rfl)

theorem processSeg_ip {res : NodeInfo} {seg : List Char} {r' : NodeInfo}
    (hk : segHasKey "ip".toList seg = false)
    (h : processSeg res seg = .ok r') : r'.ip = res.ip := by
  unfold processSeg at h
  unfold segHasKey at hk
  cases hc : idxOf? ':' seg with
  | none => simp [hc] at h; simp [← h]
  | some cp =>
    simp only [hc] at h hk
    have hne : ¬(lowerStr (seg.take cp) = "ip".toList) := by
      simpa using hk
    split_ifs at h with h1 h2 h3 h4 h5
    all_goals first
      | (cases h; rfl)
      | (cases hst : stoi (seg.drop (cp + 1)) with
          | error e => simp [hst, Except.map] at h
          | ok v =>
            simp only [hst, Except.map] at h
            cases h; rfl)

theorem processSeg_platform {res : NodeInfo} {seg : List Char} {r' : NodeInfo}
    (hk : segHasKey "platform".toList seg = false)
    (h : processSeg res seg = .ok r') : r'.platform = res.platform := by
  unfold processSeg at h
  unfold segHasKey at hk
  cases hc : idxOf? ':' seg with
  | none => simp [hc] at h; simp [← h]
  | some cp =>
    simp only [hc] at h hk
    have hne : ¬(lowerStr (seg.take cp) = "platform".toList) := by
      simpa using hk
    split_ifs at h with h1 h2 h3 h4 h5
    all_goals first
      | (cases h; rfl)
      | (cases hst : stoi (seg.drop (cp + 1)) with
          | error e => simp [hst, Except.map] at h
          | ok v =>
            simp only [hst, Except.map] at h
            cases h; rfl)

theorem processSeg_maxJobs {res : NodeInfo} {seg : List Char} {r' : NodeInfo}
    (hk : segHasKey "maxjobs".toList seg = false)
    (h : processSeg res seg = .ok r') : r'.maxJobs = res.maxJobs := by
  unfold processSeg at h
  unfold segHasKey at hk
  cases hc : idxOf? ':' seg with
  | none => simp [hc] at h; simp [← h]
  | some cp =>
    simp only [hc] at h hk
    have hne : ¬(lowerStr (seg.take cp) = "maxjobs".toList) := by
      simpa using hk
    split_ifs at h with h1 h2 h3 h4 h5
    all_goals first
      | (cases h; rfl)
      | (cases hst : stoi (seg.drop (cp + 1)) with
          | error e => simp [hst, Except.map] at h
          | ok v =>
            simp only [hst, Except.map] at h
            cases h; rfl)

theorem createLoopF_preserve {α : Type} (g : NodeInfo → α) (key : List Char)
    (hseg : ∀ (res : NodeInfo) (seg : List Char) (r' : NodeInfo),
      segHasKey key seg = false → processSeg res seg = .ok r' → g r' = g res) :
    ∀ (fuel : Nat) (res : NodeInfo) (s : List Char) (r' : NodeInfo),
      hasKeyF fuel key s = false → createLoopF fuel res s = .ok r' → g r' = g res := by
  intro fuel
  induction fuel with
  | zero =>
    intro res s r' _ h
    simp [createLoopF] at h
    simp [← h]
  | succ fuel ih =>
    intro res s r' hk h
    cases hnp : idxOf? '\n' s with
    | none =>
      simp only [createLoopF, hnp] at h
      simp only [hasKeyF, hnp] at hk
      exact hseg res s r' hk h
    | some np =>
      simp only [createLoopF, hnp] at h
      simp only [hasKeyF, hnp, Bool.or_eq_false_iff] at hk
      cases hps : processSeg res (s.take np) with
      | error e => simp [hps, error_bind] at h
      | ok mid =>
        simp only [hps, ok_bind] at h
        have h1 : g mid = g res := hseg res (s.take np) mid hk.1 hps
        have h2 : g r' = g mid := ih mid (s.drop (np + 1)) r' hk.2 h
        rw [h2, h1]

theorem createLoopF_hostId :
    ∀ (fuel : Nat) (res : NodeInfo) (s : List Char) (r' : NodeInfo),
      createLoopF fuel res s = .ok r' → r'.hostId = res.hostId := by
  intro fuel
  induction fuel with
  | zero =>
    intro res s r' h
    simp [createLoopF] at h
    simp [← h]
  | succ fuel ih =>
    intro res s r' h
    cases hnp : idxOf? '\n' s with
    | none =>
      simp only [createLoopF, hnp] at h
      exact processSeg_hostId h
    | some np =>
      simp only [createLoopF, hnp] at h
      cases hps : processSeg res (s.take np) with
      | error e => simp [hps, error_bind] at h
      | ok mid =>
        simp only [hps, ok_bind] at h
        rw [ih mid (s.drop (np + 1)) r' h, processSeg_hostId hps]

theorem createLoop_field_of_noKey {h : Nat} {s : List Char} {res : NodeInfo}
    (hcl : createLoop (mkNode h) s = .ok res) :
    (hasKey "name".toList s = false → res.name = []) ∧
    (hasKey "ip".toList s = false → res.ip = []) ∧
    (hasKey "platform".toList s = false → res.platform = []) ∧
    (hasKey "maxjobs".toList s = false → res.maxJobs = 0) := by
  refine ⟨fun hk => ?_, fun hk => ?_, fun hk => ?_, fun hk => ?_⟩
  · exact createLoopF_preserve NodeInfo.name _
      (fun _ _ _ => processSeg_name) (s.length + 1) _ s res hk hcl
  · exact createLoopF_preserve NodeInfo.ip _
      (fun _ _ _ => processSeg_ip) (s.length + 1) _ s res hk hcl
  · exact createLoopF_preserve NodeInfo.platform _
      (fun _ _ _ => processSeg_platform) (s.length + 1) _ s res hk hcl
  · exact createLoopF_preserve NodeInfo.maxJobs _
      (fun _ _ _ => processSeg_maxJobs) (s.length + 1) _ s res hk hcl

/-- Claim C1 (amended): NodeInfo::create returns a record only when the
hostId is positive and the record has it, with non-empty name, ip and
platform and positive maxJobs — a partially-parsed record is never
exposed; and whenever parsing finishes without the std::stoi exception, a
blob with no name line, no ip line, no platform line, or no maxjobs line
yields absent.  (The unamended claim also demanded absent for blobs whose
maxjobs value fails integer parsing; on those the code instead lets
std::invalid_argument escape, see the counterexample.) -/
theorem create_only_valid_records :
    (∀ (h : Nat) (s : List Char) (r : NodeInfo),
        nodeInfoCreate h s = .ok (some r) →
        0 < h ∧ r.hostId = h ∧ r.name ≠ [] ∧ r.ip ≠ [] ∧
          0 < r.maxJobs ∧ r.platform ≠ []) ∧
    (∀ (h : Nat) (s : List Char) (v : Option NodeInfo),
        nodeInfoCreate h s = .ok v → hasKey "name".toList s = false →
        v = none) ∧
    (∀ (h : Nat) (s : List Char) (v : Option NodeInfo),
        nodeInfoCreate h s = .ok v → hasKey "ip".toList s = false →
        v = none) ∧
    (∀ (h : Nat) (s : List Char) (v : Option NodeInfo),
        nodeInfoCreate h s = .ok v → hasKey "platform".toList s = false →
        v = none) ∧
    (∀ (h : Nat) (s : List Char) (v : Option NodeInfo),
        nodeInfoCreate h s = .ok v → hasKey "maxjobs".toList s = false →
        v = none) := by
  have key : ∀ (h : Nat) (s : List Char) (v : Option NodeInfo),
      nodeInfoCreate h s = .ok v →
      v = none ∨
        (h ≠ 0 ∧ ∃ res, createLoop (mkNode h) s = .ok res ∧
          nodeValid res = true ∧ v = some res) := by
    intro h s v hok
    unfold nodeInfoCreate at hok
    by_cases h0 : h = 0
    · rw [if_pos h0] at hok
      cases hok
      exact Or.inl rfl
    · rw [if_neg h0] at hok
      cases hcl : createLoop (mkNode h) s with
      | error e => rw [hcl] at hok; simp [Except.map] at hok
      | ok res =>
        rw [hcl] at hok
        simp only [Except.map, Except.ok.injEq] at hok
        by_cases hv : nodeValid res
        · exact Or.inr ⟨h0, res, rfl, hv, by rw [← hok, if_pos hv]⟩
        · rw [if_neg hv] at hok
          exact Or.inl hok.symm
  refine ⟨?_, ?_, ?_, ?_, ?_⟩
  · intro h s r hok
    rcases key h s (some r) hok with hnone | ⟨h0, res, hcl, hv, hsome⟩
    · cases hnone
    · cases hsome
      have hhost : r.hostId = (mkNode h).hostId :=
        createLoopF_hostId (s.length + 1) _ s r hcl
    -- decompose the validity flag
      simp only [nodeValid, Bool.and_eq_true, bne_iff_ne, ne_eq,
        Bool.not_eq_true'] at hv
      refine ⟨Nat.pos_of_ne_zero h0, hhost, ?_, ?_, ?_, ?_⟩
      · simpa using hv.1.1.1.2
      · simpa using hv.1.1.2
      · exact Nat.pos_of_ne_zero hv.1.2
      · simpa using hv.2
  · intro h s v hok hk
    rcases key h s v hok with hnone | ⟨h0, res, hcl, hv, hsome⟩
    · exact hnone
    · have : res.name = [] := (createLoop_field_of_noKey hcl).1 hk
      simp [nodeValid, this] at hv
  · intro h s v hok hk
    rcases key h s v hok with hnone | ⟨h0, res, hcl, hv, hsome⟩
    · exact hnone
    · have : res.ip = [] := (createLoop_field_of_noKey hcl).2.1 hk
      simp [nodeValid, this] at hv
  · intro h s v hok hk
    rcases key h s v hok with hnone | ⟨h0, res, hcl, hv, hsome⟩
    · exact hnone
    · have : res.platform = [] := (createLoop_field_of_noKey hcl).2.2.1 hk
      simp [nodeValid, this] at hv
  · intro h s v hok hk
    rcases key h s v hok with hnone | ⟨h0, res, hcl, hv, hsome⟩
    · exact hnone
    · have : res.maxJobs = 0 := (createLoop_field_of_noKey hcl).2.2.2 hk
      simp [nodeValid, this] at hv

/-- Claim C1 counterexample: the blob "maxjobs:z" has no name line, so the
claim as stated demands absent, but NodeInfo::create does not return
absent — the std::stoi exception escapes instead. -/
theorem create_missing_name_counterexample :
    hasKey "name".toList "maxjobs:z".toList = false ∧
    nodeInfoCreate 1 "maxjobs:z".toList = .error .invalidArgument ∧
    isAbsent (nodeInfoCreate 1 "maxjobs:z".toList) = false :=
  ⟨rfl, rfl, rfl⟩

/-- Claim C4: a maxjobs line whose value is not numeric does not yield an
absent record — NodeInfo::create lets the std::invalid_argument of
std::stoi escape uncaught, terminate() ends the process (no exit code of
the documented 0..3 set), contradicting the spec's "silently dropped
record, never an error". -/
theorem maxjobs_nonnumeric_throws :
    nodeInfoCreate 1 "name:a\nip:b\nmaxjobs:x\nplatform:p\n".toList
      = .error .invalidArgument ∧
    isAbsent (nodeInfoCreate 1
        "name:a\nip:b\nmaxjobs:x\nplatform:p\n".toList) = false :=
  ⟨rfl, rfl⟩

/-- Claim C5 counterexample: parsing Scenario A's blob does not give the
record claimed by the spec — the value of each string field keeps the
blank that follows the colon, so the name is " alpha", not "alpha". -/
theorem scenarioA_counterexample :
    nodeInfoCreate 1
        "name: alpha\nip: 10.0.0.1\nmaxjobs: 4\nplatform: x86_64\n".toList
      = .ok (some (NodeInfo.mk 1 " alpha".toList " 10.0.0.1".toList 4
                     false false " x86_64".toList)) ∧
    (" alpha".toList == "alpha".toList) = false ∧
    (" 10.0.0.1".toList == "10.0.0.1".toList) = false ∧
    (" x86_64".toList == "x86_64".toList) = false :=
  ⟨rfl, rfl, rfl, rfl⟩

/-- Claim C5 (amended): Scenario A's blob with hostId 1 parses to the valid
record whose fields keep the blank after each colon: name " alpha",
ip " 10.0.0.1", maxJobs 4, noRemote false, offline false,
platform " x86_64". -/
theorem scenarioA_parse :
    nodeInfoCreate 1
        "name: alpha\nip: 10.0.0.1\nmaxjobs: 4\nplatform: x86_64\n".toList
      = .ok (some (NodeInfo.mk 1 " alpha".toList " 10.0.0.1".toList 4
                     false false " x86_64".toList)) :=
  rfl

/-! ## Lemmas about the ingestion loop -/

/-- Claim C2: a stats message's record is appended, with the high-water
mark set to its hostId and the iteration marked useful, exactly when the
parse yields a valid record whose hostId strictly exceeds the mark; a
valid record at or below the mark, and an absent parse, leave the
collection and the mark untouched (and a throwing parse appends nothing —
the exception propagates). -/
theorem ingest_append_iff :
    ∀ (st : IngestState) (ms : List RawMsg) (useful : Bool)
      (hid : Nat) (blob : List Char),
      (∀ n : NodeInfo, nodeInfoCreate hid blob = .ok (some n) →
        (st.hostIdMax < n.hostId →
          drainMsgs (RawMsg.stats hid blob :: ms) st useful
            = drainMsgs ms ⟨st.nodes ++ [n], n.hostId⟩ true) ∧
        (¬ st.hostIdMax < n.hostId →
          drainMsgs (RawMsg.stats hid blob :: ms) st useful
            = drainMsgs ms st useful)) ∧
      (nodeInfoCreate hid blob = .ok none →
        drainMsgs (RawMsg.stats hid blob :: ms) st useful
          = drainMsgs ms st useful) ∧
      (∀ e : StoiErr, nodeInfoCreate hid blob = .error e →
        drainMsgs (RawMsg.stats hid blob :: ms) st useful
          = .error (.uncaught e)) := by
  intro st ms useful hid blob
  refine ⟨fun n hok => ⟨fun hgt => ?_, fun hle => ?_⟩,
    fun hok => ?_, fun e hok => ?_⟩
  · simp [drainMsgs, hok, if_pos hgt]
  · simp [drainMsgs, hok, if_neg hle]
  · simp [drainMsgs, hok]
  · simp [drainMsgs, hok]

/-- Witness for C2: from the empty state, the record parsed from a
concrete blob with hostId 1 > 0 is appended and the mark becomes 1. -/
theorem ingest_append_iff_witness :
    drainMsgs [RawMsg.stats 1 "name:n\nip:i\nmaxjobs:3\nplatform:p".toList]
        initState false
      = drainMsgs [] ⟨initState.nodes ++
          [NodeInfo.mk 1 ['n'] ['i'] 3 false false ['p']], 1⟩ true :=
  ((ingest_append_iff initState [] false 1
      "name:n\nip:i\nmaxjobs:3\nplatform:p".toList).1
    (NodeInfo.mk 1 ['n'] ['i'] 3 false false ['p']) rfl).1 (by decide)

/-! ## Lemmas about the aggregation -/

theorem coreCount_foldl (l : List NodeInfo) :
    ∀ a : Nat, a < 2 ^ 32 →
      l.foldl (fun count n =>
          if !n.noRemote && !n.offline then (count + n.maxJobs) % 2 ^ 32
          else count) a
        = (a + ((l.filter (fun n => !n.noRemote && !n.offline)).map
            NodeInfo.maxJobs).sum) % 2 ^ 32 := by
  induction l with
  | nil =>
    intro a ha
    simp only [List.foldl_nil, List.filter_nil, List.map_nil,
      List.sum_nil, Nat.add_zero]
    omega
  | cons n t ih =>
    intro a ha
    rw [List.foldl_cons]
    by_cases hn : (!n.noRemote && !n.offline) = true
    · rw [if_pos hn, ih ((a + n.maxJobs) % 2 ^ 32)
          (Nat.mod_lt _ (by norm_num)), Nat.mod_add_mod]
      have hf : (n :: t).filter (fun n => !n.noRemote && !n.offline)
          = n :: t.filter (fun n => !n.noRemote && !n.offline) := by
        simp [List.filter_cons, hn]
      rw [hf, List.map_cons, List.sum_cons]
      congr 1
      omega
    · rw [if_neg hn]
      have hf : (n :: t).filter (fun n => !n.noRemote && !n.offline)
          = t.filter (fun n => !n.noRemote && !n.offline) := by
        simp [List.filter_cons, hn]
      rw [hf, ih a ha]

/-- Claim C3 (amended): coreCount is the sum of maxJobs over exactly the
records with noRemote and offline both false, reduced modulo 2^32 (the
uint32_t accumulation of the C++); a record with noRemote or offline never
contributes; the display filter flags have no effect on coreCount. -/
theorem coreCount_spec :
    (∀ (nodes : List NodeInfo) (f1 f2 f1' f2' : Bool),
        (aggregate f1 f2 nodes).1 = (aggregate f1' f2' nodes).1) ∧
    (∀ nodes : List NodeInfo,
        coreCount nodes =
          ((nodes.filter (fun n => !n.noRemote && !n.offline)).map
            NodeInfo.maxJobs).sum % 2 ^ 32) ∧
    (∀ (l1 l2 : List NodeInfo) (bad : NodeInfo),
        bad.noRemote = true ∨ bad.offline = true →
        coreCount (l1 ++ bad :: l2) = coreCount (l1 ++ l2)) := by
  refine ⟨fun nodes f1 f2 f1' f2' => rfl, fun nodes => ?_, ?_⟩
  · unfold coreCount
    rw [coreCount_foldl nodes 0 (by norm_num), Nat.zero_add]
  · intro l1 l2 bad hbad
    unfold coreCount
    rw [List.foldl_append, List.foldl_append, List.foldl_cons]
    have hcond : (!bad.noRemote && !bad.offline) = false := by
      rcases hbad with hb | hb <;> simp [hb]
    rw [hcond]
    simp

/-- Witness for C3: an offline record inserted between two others does not
change coreCount. -/
theorem coreCount_spec_witness :
    coreCount ([NodeInfo.mk 1 ['a'] ['b'] 4 false false ['p']] ++
        NodeInfo.mk 2 ['c'] ['d'] 8 false true ['p'] ::
          [NodeInfo.mk 3 ['e'] ['f'] 2 false false ['p']])
      = coreCount ([NodeInfo.mk 1 ['a'] ['b'] 4 false false ['p']] ++
          [NodeInfo.mk 3 ['e'] ['f'] 2 false false ['p']]) :=
  coreCount_spec.2.2 [NodeInfo.mk 1 ['a'] ['b'] 4 false false ['p']]
    [NodeInfo.mk 3 ['e'] ['f'] 2 false false ['p']]
    (NodeInfo.mk 2 ['c'] ['d'] 8 false true ['p']) (Or.inr rfl)

/-- Claim C3 counterexample: two records the parser and the ingestion loop
accept (maxJobs 4294967295 parsed from "maxjobs:-1" through the int →
uint32_t conversion, and maxJobs 1), all online and remote-enabled: the
uint32_t accumulation wraps, coreCount is 0, not the arithmetic sum
4294967296 of their maxJobs. -/
theorem coreCount_overflow_counterexample :
    nodeInfoCreate 1 "name:a\nip:b\nmaxjobs:-1\nplatform:p".toList
      = .ok (some (NodeInfo.mk 1 ['a'] ['b'] 4294967295 false false ['p'])) ∧
    drainMsgs [RawMsg.stats 1 "name:a\nip:b\nmaxjobs:-1\nplatform:p".toList,
               RawMsg.stats 2 "name:a\nip:b\nmaxjobs:1\nplatform:p".toList]
        initState false
      = .ok (⟨[NodeInfo.mk 1 ['a'] ['b'] 4294967295 false false ['p'],
               NodeInfo.mk 2 ['a'] ['b'] 1 false false ['p']], 2⟩, true) ∧
    coreCount [NodeInfo.mk 1 ['a'] ['b'] 4294967295 false false ['p'],
               NodeInfo.mk 2 ['a'] ['b'] 1 false false ['p']] = 0 ∧
    (NodeInfo.mk 1 ['a'] ['b'] 4294967295 false false ['p']).maxJobs
      + (NodeInfo.mk 2 ['a'] ['b'] 1 false false ['p']).maxJobs
      = 4294967296 :=
  ⟨rfl, rfl, rfl, rfl⟩

theorem drainMsgs_append (l1 l2 : List RawMsg) :
    ∀ (st : IngestState) (u : Bool),
      drainMsgs (l1 ++ l2) st u
        = match drainMsgs l1 st u with
          | .ok (st', u') => drainMsgs l2 st' u'
          | .error a => .error a := by
  induction l1 with
  | nil => intro st u; rfl
  | cons m ms ih =>
    intro st u
    cases m with
    | nullMsg => rfl
    | endOfSession => rfl
    | otherMsg => simpa [drainMsgs] using ih st u
    | stats hid blob =>
      simp only [List.cons_append, drainMsgs]
      cases hok : nodeInfoCreate hid blob with
      | error e => rfl
      | ok v =>
        cases v with
        | none => exact ih st u
        | some n =>
          by_cases hgt : st.hostIdMax < n.hostId
          · simp only [if_pos hgt]
            exact ih _ _
          · simp only [if_neg hgt]
            exact ih st u

theorem pollLoop_append (l1 l2 : List PollEvent) :
    ∀ (st : IngestState) (k : Nat),
      pollLoop (l1 ++ l2) st k
        = match pollLoop l1 st k with
          | .stillWaiting st' k' => pollLoop l2 st' k'
          | r => r := by
  induction l1 with
  | nil => intro st k; rfl
  | cons ev evs ih =>
    intro st k
    cases ev with
    | pollError => rfl
    | pollTimeout => rfl
    | pollReady msgs =>
      simp only [List.cons_append, pollLoop]
      cases hd : drainMsgs msgs st false with
      | error a => rfl
      | ok p =>
        by_cases hk : (if p.2 then 0 else k + 1) < USELESS_POLLS_MAX
        · simp only [if_pos hk]
          exact ih _ _
        · simp only [if_neg hk]

theorem pollLoop_append_stillWaiting {l1 : List PollEvent} {st st' : IngestState}
    {k k' : Nat} (h : pollLoop l1 st k = .stillWaiting st' k')
    (l2 : List PollEvent) : pollLoop (l1 ++ l2) st k = pollLoop l2 st' k' := by
  rw [pollLoop_append, h]

/-- Claim C6: a receive-poll timeout reached with zero records accepted
ends the run with EXIT_NO_DATA (3), not as a connection error, while a
genuine poll() failure ends it with EXIT_CONNECTION_ERR (2). -/
theorem timeout_vs_poll_failure :
    (∀ (pre suf : List PollEvent) (st : IngestState) (k : Nat) (cfg : Config),
      pollLoop pre initState 0 = .stillWaiting st k → st.nodes = [] →
      runMain cfg (pre ++ PollEvent.pollTimeout :: suf)
        = some (.exited EXIT_NO_DATA none)) ∧
    (∀ (pre suf : List PollEvent) (st : IngestState) (k : Nat) (cfg : Config),
      pollLoop pre initState 0 = .stillWaiting st k →
      runMain cfg (pre ++ PollEvent.pollError :: suf)
        = some (.exited EXIT_CONNECTION_ERR none)) ∧
    EXIT_NO_DATA ≠ EXIT_CONNECTION_ERR := by
  refine ⟨?_, ?_, by decide⟩
  · intro pre suf st k cfg hpre hempty
    unfold runMain
    rw [pollLoop_append_stillWaiting hpre]
    have hstep : pollLoop (PollEvent.pollTimeout :: suf) st k
        = LoopRes.finished st := rfl
    rw [hstep]
    show some (finishUp cfg st) = some (MainOutcome.exited EXIT_NO_DATA none)
    unfold finishUp
    rw [if_pos (by simp [hempty])]
  · intro pre suf st k cfg hpre
    unfold runMain
    rw [pollLoop_append_stillWaiting hpre]
    have hstep : pollLoop (PollEvent.pollError :: suf) st k
        = LoopRes.aborted (Abort.exitCode EXIT_CONNECTION_ERR) := rfl
    rw [hstep]

/-- Witness for C6: with no prior events (the loop still waiting in its
first poll with nothing accepted), a timeout exits 3 and a poll error
exits 2. -/
theorem timeout_vs_poll_failure_witness :
    runMain ⟨false, false, false, false, false, false, none⟩
        ([] ++ PollEvent.pollTimeout :: [])
      = some (.exited EXIT_NO_DATA none) ∧
    runMain ⟨false, false, false, false, false, false, none⟩
        ([] ++ PollEvent.pollError :: [])
      = some (.exited EXIT_CONNECTION_ERR none) :=
  ⟨timeout_vs_poll_failure.1 [] [] initState 0
      ⟨false, false, false, false, false, false, none⟩ rfl rfl,
   timeout_vs_poll_failure.2.1 [] [] initState 0
      ⟨false, false, false, false, false, false, none⟩ rfl⟩

/-- Claim C7: an end-of-session message reached during the drain stops
ingestion at once with EXIT_CONNECTION_ERR (2), whatever records were
already collected, and no table is ever rendered on that path. -/
theorem end_message_aborts :
    ∀ (pre suf : List PollEvent) (st : IngestState) (k : Nat) (cfg : Config)
      (ms1 ms2 : List RawMsg) (st' : IngestState) (u' : Bool),
      pollLoop pre initState 0 = .stillWaiting st k →
      drainMsgs ms1 st false = .ok (st', u') →
      runMain cfg
        (pre ++ PollEvent.pollReady (ms1 ++ RawMsg.endOfSession :: ms2) :: suf)
        = some (.exited EXIT_CONNECTION_ERR none) := by
  intro pre suf st k cfg ms1 ms2 st' u' hpre hdrain
  unfold runMain
  rw [pollLoop_append_stillWaiting hpre]
  have hd2 : drainMsgs (ms1 ++ RawMsg.endOfSession :: ms2) st false
      = .error (.exitCode EXIT_CONNECTION_ERR) := by
    rw [drainMsgs_append ms1 (RawMsg.endOfSession :: ms2) st false, hdrain]
    rfl
  have hstep : pollLoop
      (PollEvent.pollReady (ms1 ++ RawMsg.endOfSession :: ms2) :: suf) st k
      = LoopRes.aborted (Abort.exitCode EXIT_CONNECTION_ERR) := by
    simp only [pollLoop, hd2]
  rw [hstep]

/-- Witness for C7: one record is already collected when the end message
arrives; the run still exits 2 with no table. -/
theorem end_message_aborts_witness :
    runMain ⟨false, false, false, false, false, false, none⟩
        ([] ++ PollEvent.pollReady
          ([RawMsg.stats 1 "name:n\nip:i\nmaxjobs:3\nplatform:p".toList]
            ++ RawMsg.endOfSession :: []) :: [])
      = some (.exited EXIT_CONNECTION_ERR none) :=
  end_message_aborts [] [] initState 0
    ⟨false, false, false, false, false, false, none⟩
    [RawMsg.stats 1 "name:n\nip:i\nmaxjobs:3\nplatform:p".toList] []
    ⟨[NodeInfo.mk 1 ['n'] ['i'] 3 false false ['p']], 1⟩ true rfl rfl

theorem stateInv_initState : stateInv initState :=
  ⟨List.chain'_nil, fun n hn => absurd hn (List.not_mem_nil n), rfl⟩

theorem stateInv_accept {st : IngestState} {n : NodeInfo} (hinv : stateInv st)
    (hgt : st.hostIdMax < n.hostId) :
    stateInv ⟨st.nodes ++ [n], n.hostId⟩ := by
  obtain ⟨hchain, hbound, hlast⟩ := hinv
  refine ⟨?_, ?_, ?_⟩
  · show ((st.nodes ++ [n]).map NodeInfo.hostId).Chain' (· < ·)
    rw [List.map_append, List.chain'_append]
    refine ⟨hchain, List.chain'_singleton _, ?_⟩
    intro x hx y hy
    simp only [List.map_cons, List.map_nil, List.head?_cons,
      Option.mem_def, Option.some.injEq] at hy
    subst hy
    have hxmem : x ∈ st.nodes.map NodeInfo.hostId := List.mem_of_mem_getLast? hx
    obtain ⟨m, hm, rfl⟩ := List.mem_map.mp hxmem
    exact lt_of_le_of_lt (hbound m hm) hgt
  · intro m hm
    rcases List.mem_append.mp hm with h1 | h2
    · exact le_of_lt (lt_of_le_of_lt (hbound m h1) hgt)
    · simp only [List.mem_singleton] at h2
      subst h2
      exact le_refl _
  · show n.hostId = ((st.nodes ++ [n]).map NodeInfo.hostId).getLastD 0
    rw [List.map_append]
    simp

theorem drainMsgs_inv :
    ∀ (ms : List RawMsg) (st : IngestState) (u : Bool)
      (st' : IngestState) (u' : Bool),
      stateInv st → drainMsgs ms st u = .ok (st', u') → stateInv st' := by
  intro ms
  induction ms with
  | nil =>
    intro st u st' u' hinv h
    simp only [drainMsgs, Except.ok.injEq, Prod.mk.injEq] at h
    rw [← h.1]
    exact hinv
  | cons m ms ih =>
    intro st u st' u' hinv h
    cases m with
    | nullMsg => simp [drainMsgs] at h
    | endOfSession => simp [drainMsgs] at h
    | otherMsg => exact ih st u st' u' hinv h
    | stats hid blob =>
      cases hok : nodeInfoCreate hid blob with
      | error e => simp [drainMsgs, hok] at h
      | ok v =>
        cases v with
        | none =>
          simp only [drainMsgs, hok] at h
          exact ih st u st' u' hinv h
        | some n =>
          simp only [drainMsgs, hok] at h
          by_cases hgt : st.hostIdMax < n.hostId
          · rw [if_pos hgt] at h
            exact ih _ _ _ _ (stateInv_accept hinv hgt) h
          · rw [if_neg hgt] at h
            exact ih st u st' u' hinv h

theorem pollLoop_inv :
    ∀ (evs : List PollEvent) (st : IngestState) (k : Nat), stateInv st →
      (∀ st', pollLoop evs st k = .finished st' → stateInv st') ∧
      (∀ st' k', pollLoop evs st k = .stillWaiting st' k' → stateInv st') := by
  intro evs
  induction evs with
  | nil =>
    intro st k hinv
    refine ⟨fun st' h => ?_, fun st' k' h => ?_⟩
    · simp [pollLoop] at h
    · simp only [pollLoop, LoopRes.stillWaiting.injEq] at h
      rw [← h.1]
      exact hinv
  | cons ev evs ih =>
    intro st k hinv
    cases ev with
    | pollError =>
      refine ⟨fun st' h => ?_, fun st' k' h => ?_⟩ <;> simp [pollLoop] at h
    | pollTimeout =>
      refine ⟨fun st' h => ?_, fun st' k' h => ?_⟩
      · simp only [pollLoop, LoopRes.finished.injEq] at h
        rw [← h]
        exact hinv
      · simp [pollLoop] at h
    | pollReady msgs =>
      cases hd : drainMsgs msgs st false with
      | error a =>
        refine ⟨fun st' h => ?_, fun st' k' h => ?_⟩ <;> simp [pollLoop, hd] at h
      | ok p =>
        obtain ⟨st2, useful⟩ := p
        have hinv2 : stateInv st2 := drainMsgs_inv msgs st false st2 useful hinv hd
        by_cases hk : (if useful then 0 else k + 1) < USELESS_POLLS_MAX
        · refine ⟨fun st' h => ?_, fun st' k' h => ?_⟩
          · simp only [pollLoop, hd, if_pos hk] at h
            exact (ih st2 (if useful then 0 else k + 1) hinv2).1 st' h
          · simp only [pollLoop, hd, if_pos hk] at h
            exact (ih st2 (if useful then 0 else k + 1) hinv2).2 st' k' h
        · refine ⟨fun st' h => ?_, fun st' k' h => ?_⟩
          · simp only [pollLoop, hd, if_neg hk, LoopRes.finished.injEq] at h
            rw [← h]
            exact hinv2
          · simp only [pollLoop, hd, if_neg hk] at h
            exact LoopRes.noConfusion h

/-- Claim C9: after any run of the ingestion loop from the initial state,
the hostIds of the collected records are strictly increasing in insertion
order and the high-water mark is the hostId of the last accepted record;
hence the hostIds — the Node # column values of the rendered rows, under
any display filter — are pairwise distinct. -/
theorem ingestion_loop_invariant :
    ∀ (evs : List PollEvent) (st : IngestState) (k : Nat),
      pollLoop evs initState 0 = .finished st ∨
        pollLoop evs initState 0 = .stillWaiting st k →
      ((st.nodes.map NodeInfo.hostId).Chain' (· < ·) ∧
        st.hostIdMax = (st.nodes.map NodeInfo.hostId).getLastD 0) ∧
      (st.nodes.map NodeInfo.hostId).Nodup ∧
      (∀ f1 f2 : Bool,
        ((st.nodes.filter (keepNode f1 f2)).map NodeInfo.hostId).Nodup) := by
  intro evs st k h
  have hinv : stateInv st := by
    rcases h with h | h
    · exact (pollLoop_inv evs initState 0 stateInv_initState).1 st h
    · exact (pollLoop_inv evs initState 0 stateInv_initState).2 st k h
  obtain ⟨hchain, hbound, hlast⟩ := hinv
  have hnodup : (st.nodes.map NodeInfo.hostId).Nodup :=
    (List.chain'_iff_pairwise.mp hchain).imp Nat.ne_of_lt
  refine ⟨⟨hchain, hlast⟩, hnodup, fun f1 f2 => ?_⟩
  exact List.Nodup.sublist
    (List.Sublist.map NodeInfo.hostId (List.filter_sublist st.nodes)) hnodup

/-- Witness for C9: a run that accepts two records with hostIds 1 and 2
and is then still polling satisfies the invariant. -/
theorem ingestion_loop_invariant_witness :
    ((IngestState.mk [NodeInfo.mk 1 ['n'] ['i'] 3 false false ['p'],
        NodeInfo.mk 2 ['m'] ['j'] 4 false false ['q']] 2).nodes.map
          NodeInfo.hostId).Chain' (· < ·) ∧
    (IngestState.mk [NodeInfo.mk 1 ['n'] ['i'] 3 false false ['p'],
        NodeInfo.mk 2 ['m'] ['j'] 4 false false ['q']] 2).hostIdMax
      = ((IngestState.mk [NodeInfo.mk 1 ['n'] ['i'] 3 false false ['p'],
          NodeInfo.mk 2 ['m'] ['j'] 4 false false ['q']] 2).nodes.map
            NodeInfo.hostId).getLastD 0 := by
  have h := ingestion_loop_invariant
    [PollEvent.pollReady
      [RawMsg.stats 1 "name:n\nip:i\nmaxjobs:3\nplatform:p".toList,
       RawMsg.stats 2 "name:m\nip:j\nmaxjobs:4\nplatform:q".toList]]
    (IngestState.mk [NodeInfo.mk 1 ['n'] ['i'] 3 false false ['p'],
        NodeInfo.mk 2 ['m'] ['j'] 4 false false ['q']] 2) 0
    (Or.inr rfl)
  exact ⟨h.1.1, h.1.2⟩

theorem take_append_cons {c : Char} (pre suf : List Char) :
    (pre ++ c :: suf).take pre.length = pre := by
  rw [List.append_cons]
  have h := List.take_left (pre ++ [c]) suf
  rw [List.length_append, List.length_singleton] at h
  calc ((pre ++ [c]) ++ suf).take pre.length
      = (((pre ++ [c]) ++ suf).take (pre.length + 1)).take pre.length := by
        rw [List.take_take]
        congr 1
        omega
    _ = (pre ++ [c]).take pre.length := by rw [h]
    _ = pre := by rw [List.take_append_of_le_length (by simp), List.take_length]

theorem drop_append_cons {c : Char} (pre suf : List Char) :
    (pre ++ c :: suf).drop (pre.length + 1) = suf := by
  rw [List.append_cons]
  have h := List.drop_left (pre ++ [c]) suf
  rwa [List.length_append, List.length_singleton] at h

/-- Claim C10: the parse loop of NodeInfo::create processes the blob's
lines first to last — scanning a blob that starts with a full line
processes that line and then the rest — and a recognized key's assignment
overwrites whatever the field held, so with a key on several lines the
last occurrence's value wins. -/
theorem parse_lines_in_order_overwrite :
    (∀ (res : NodeInfo) (line rest : List Char), '\n' ∉ line →
      createLoop res (line ++ '\n' :: rest)
        = (processSeg res line).bind (fun r => createLoop r rest)) ∧
    (∀ (res : NodeInfo) (v : List Char),
      processSeg res ("name".toList ++ ':' :: v) = .ok { res with name := v }) ∧
    (∀ (res : NodeInfo) (v : List Char),
      processSeg res ("ip".toList ++ ':' :: v) = .ok { res with ip := v }) ∧
    (∀ (res : NodeInfo) (v : List Char),
      processSeg res ("platform".toList ++ ':' :: v)
        = .ok { res with platform := v }) ∧
    (∀ (res : NodeInfo) (v : List Char) (i : Int), stoi v = .ok i →
      processSeg res ("maxjobs".toList ++ ':' :: v)
        = .ok { res with maxJobs := (i % (2 ^ 32 : Int)).toNat }) ∧
    (∀ (res : NodeInfo) (v : List Char),
      processSeg res ("noremote".toList ++ ':' :: v)
        = .ok { res with noRemote := decide (lowerStr v = "true".toList) }) ∧
    (∀ (res : NodeInfo) (v : List Char),
      processSeg res ("state".toList ++ ':' :: v)
        = .ok { res with offline := decide (lowerStr v = "offline".toList) }) := by
  refine ⟨?_, ?_, ?_, ?_, ?_, ?_, ?_⟩
  · intro res line rest hnl
    have hidx : idxOf? '\n' (line ++ '\n' :: rest) = some line.length :=
      idxOf?_append_cons line rest hnl
    have hlen : (line ++ '\n' :: rest).length + 1
        = (line.length + rest.length + 1) + 1 := by simp; omega
    unfold createLoop
    rw [hlen]
    show (match idxOf? '\n' (line ++ '\n' :: rest) with
      | none => processSeg res (line ++ '\n' :: rest)
      | some np => do
        let r ← processSeg res ((line ++ '\n' :: rest).take np)
        createLoopF (line.length + rest.length + 1) r
          ((line ++ '\n' :: rest).drop (np + 1))) = _
    rw [hidx]
    show (do
      let r ← processSeg res ((line ++ '\n' :: rest).take line.length)
      createLoopF (line.length + rest.length + 1) r
        ((line ++ '\n' :: rest).drop (line.length + 1))) = _
    rw [take_append_cons, drop_append_cons]
    cases hps : processSeg res line with
    | error e => rfl
    | ok r =>
      show createLoopF (line.length + rest.length + 1) r rest = createLoop r rest
      rw [createLoopF_fuel (line.length + rest.length + 1) r rest (by omega)]
      rfl
  · intro res v
    rfl
  · intro res v
    rfl
  · intro res v
    rfl
  · intro res v i hst
    have hm : processSeg res ("maxjobs".toList ++ ':' :: v)
        = (stoi v).map
            (fun i => { res with maxJobs := (i % (2 ^ 32 : Int)).toNat }) := rfl
    rw [hm, hst]
    rfl
  · intro res v
    rfl
  · intro res v
    rfl

/-! ## Lemmas about the table renderer -/

theorem length_spaces (n : Nat) : (spaces n).length = n := by
  simp [spaces, String.length]

theorem length_padCell (a : Alignment) (m : Nat) (s : String) :
    (padCell a m s).length = max m s.length := by
  unfold padCell
  by_cases h : s.length < m
  · rw [if_pos h]
    cases a <;> simp [String.length_append, length_spaces] <;> omega
  · rw [if_neg h]
    rw [Nat.max_eq_right (Nat.le_of_not_lt h)]

theorem le_foldl_max : ∀ (l : List Nat) (a : Nat), a ≤ l.foldl max a := by
  intro l
  induction l with
  | nil => intro a; exact le_refl a
  | cons x t ih =>
    intro a
    exact le_trans (Nat.le_max_left a x) (ih (max a x))

theorem foldl_max_le_of_mem :
    ∀ (l : List Nat) (a x : Nat), x ∈ l → x ≤ l.foldl max a := by
  intro l
  induction l with
  | nil => intro a x hx; exact absurd hx (List.not_mem_nil x)
  | cons y t ih =>
    intro a x hx
    rcases List.mem_cons.mp hx with rfl | hmem
    · exact le_trans (Nat.le_max_right a x) (le_foldl_max t (max a x))
    · exact ih (max a y) x hmem

theorem foldl_max_cases :
    ∀ (l : List Nat) (a : Nat), l.foldl max a = a ∨ l.foldl max a ∈ l := by
  intro l
  induction l with
  | nil => intro a; exact Or.inl rfl
  | cons x t ih =>
    intro a
    rcases ih (max a x) with h | h
    · rcases Nat.le_total a x with hax | hxa
      · rw [List.foldl_cons, h, Nat.max_eq_right hax]
        exact Or.inr (List.mem_cons_self x t)
      · rw [List.foldl_cons, h, Nat.max_eq_left hxa]
        exact Or.inl rfl
    · exact Or.inr (List.mem_cons_of_mem x h)

theorem colMaxLen_eq_foldl_max (header : List ColumnHeader)
    (strings : List String) (plain ascii : Bool)
    (trans : Option (String → String)) (c : Nat) :
    colMaxLen header strings plain ascii trans c
      = ((List.range (rowCount header strings + 1)).map
          (fun r => cellLen header strings plain ascii trans c r)).foldl max 0 := by
  rw [List.foldl_map]
  rfl

theorem join_concat (l : List String) (x : String) :
    String.join (l ++ [x]) = String.join l ++ x := by
  simp [String.join, List.foldl_append]

theorem intersperse_concat {α : Type} (sep x : α) :
    ∀ (l : List α), l ≠ [] →
      List.intersperse sep (l ++ [x]) = List.intersperse sep l ++ [sep, x] := by
  intro l
  induction l with
  | nil => intro h; exact absurd rfl h
  | cons a t ih =>
    intro _
    cases t with
    | nil => rfl
    | cons b t2 =>
      have hne : b :: t2 ≠ [] := by simp
      calc List.intersperse sep ((a :: b :: t2) ++ [x])
          = a :: sep :: List.intersperse sep ((b :: t2) ++ [x]) := rfl
        _ = a :: sep :: (List.intersperse sep (b :: t2) ++ [sep, x]) := by
            rw [ih hne]
        _ = List.intersperse sep (a :: b :: t2) ++ [sep, x] := rfl

theorem join_of_foldl_append (g : Nat → String) (l : List Nat) :
    l.foldl (fun acc r => acc ++ g r) "" = String.join (l.map g) := by
  show _ = (l.map g).foldl (· ++ ·) ""
  rw [List.foldl_map]

theorem renderTable_eq_lines (header : List ColumnHeader)
    (strings : List String) (plain ascii : Bool)
    (trans : Option (String → String)) :
    renderTable header strings plain ascii trans
      = String.join ((List.range (rowCount header strings + 1)).map
          (fun r => rowLine header strings plain ascii trans r ++ "\n"
            ++ (if r = 0 && !plain then
                  headerSepLine header strings plain ascii trans ++ "\n"
                else ""))) := by
  unfold renderTable
  rw [← join_of_foldl_append]
  congr 1
  funext acc r
  by_cases hr : (r = 0 && !plain) = true
  · simp only [hr, if_pos, String.append_assoc]
  · simp only [hr, if_neg, Bool.false_eq_true, not_false_iff, if_false]
    simp only [String.append_empty, String.append_assoc]

theorem foldl_cells_eq_join (sep : String) (f : Nat → String) :
    ∀ n : Nat, 0 < n →
      (List.range n).foldl
          (fun acc c => acc ++ (if 0 < c then sep else "") ++ f c) ""
        = String.join (List.intersperse sep ((List.range n).map f)) := by
  intro n
  induction n with
  | zero => intro h; omega
  | succ n ih =>
    intro _
    by_cases hn : 0 < n
    · rw [List.range_succ, List.foldl_append, List.map_append, ih hn]
      simp only [List.foldl_cons, List.foldl_nil, List.map_singleton]
      rw [intersperse_concat sep (f n) _ (by simp; omega), if_pos hn]
      have h2 : List.intersperse sep ((List.range n).map f) ++ [sep, f n]
          = (List.intersperse sep ((List.range n).map f) ++ [sep]) ++ [f n] := by
        simp
      rw [h2, join_concat, join_concat, String.append_assoc]
    · have hn0 : n = 0 := by omega
      subst hn0
      show "" ++ (if (0 : Nat) > 0 then sep else "") ++ f 0
          = String.join (List.intersperse sep [f 0])
      simp [String.join]

/-- Claim C8: for any header list and flat row list, renderTable computes
each column's width as the maximum display width, margins applied, over
the header cell and every row cell of that column (an attained maximum);
every cell is padded to exactly that width; every emitted line of the
table body is the join of exactly columnCount cells with the one column
separator between consecutive cells; and the rendered table is these row
lines in order, the header separator line following row 0 unless plain. -/
theorem renderTable_layout :
    ∀ (header : List ColumnHeader) (strings : List String)
      (plain ascii : Bool) (trans : Option (String → String)),
      header ≠ [] → strings.length % header.length = 0 →
      (∀ c, c < header.length →
        (∀ r, r < rowCount header strings + 1 →
          cellLen header strings plain ascii trans c r
            ≤ colMaxLen header strings plain ascii trans c) ∧
        (∃ r, r < rowCount header strings + 1 ∧
          colMaxLen header strings plain ascii trans c
            = cellLen header strings plain ascii trans c r)) ∧
      (∀ c r, c < header.length → r < rowCount header strings + 1 →
        (paddedCell header strings plain ascii trans c r).length
          = colMaxLen header strings plain ascii trans c) ∧
      (∀ r, rowLine header strings plain ascii trans r
          = String.join (List.intersperse (sepStr plain ascii)
              ((List.range header.length).map
                (fun c => paddedCell header strings plain ascii trans c r))) ∧
        ((List.range header.length).map
            (fun c => paddedCell header strings plain ascii trans c r)).length
          = header.length) ∧
      renderTable header strings plain ascii trans
        = String.join ((List.range (rowCount header strings + 1)).map
            (fun r => rowLine header strings plain ascii trans r ++ "\n"
              ++ (if r = 0 && !plain then
                    headerSepLine header strings plain ascii trans ++ "\n"
                  else ""))) := by
  intro header strings plain ascii trans hne _
  have hcc : 0 < header.length := List.length_pos.mpr hne
  have hbound : ∀ c r, r < rowCount header strings + 1 →
      cellLen header strings plain ascii trans c r
        ≤ colMaxLen header strings plain ascii trans c := by
    intro c r hr
    rw [colMaxLen_eq_foldl_max]
    exact foldl_max_le_of_mem _ 0 _
      (List.mem_map_of_mem _ (List.mem_range.mpr hr))
  refine ⟨fun c _ => ⟨hbound c, ?_⟩, fun c r _ hr => ?_, fun r => ⟨?_, by simp⟩,
    renderTable_eq_lines header strings plain ascii trans⟩
  · rw [colMaxLen_eq_foldl_max]
    rcases foldl_max_cases
        ((List.range (rowCount header strings + 1)).map
          (fun r => cellLen header strings plain ascii trans c r)) 0 with
      h0 | hmem
    · refine ⟨0, Nat.succ_pos _, ?_⟩
      have hle := foldl_max_le_of_mem
        ((List.range (rowCount header strings + 1)).map
          (fun r => cellLen header strings plain ascii trans c r)) 0
        (cellLen header strings plain ascii trans c 0)
        (List.mem_map_of_mem _ (List.mem_range.mpr (Nat.succ_pos _)))
      omega
    · obtain ⟨r, hr, hval⟩ := List.mem_map.mp hmem
      exact ⟨r, List.mem_range.mp hr, hval.symm⟩
  · unfold paddedCell
    rw [length_padCell]
    have hb := hbound c r hr
    unfold cellLen at hb
    exact Nat.max_eq_left hb
  · exact foldl_cells_eq_join (sepStr plain ascii)
      (fun c => paddedCell header strings plain ascii trans c r)
      header.length hcc

/-- Witness for C8: a concrete 2-column, 1-row table; the theorem applies
and gives the padded width of the top-left cell. -/
theorem renderTable_layout_witness :
    (paddedCell [⟨Alignment.left, false, "A"⟩, ⟨Alignment.right, false, "B"⟩]
        ["x", "yy"] false true none 0 0).length
      = colMaxLen [⟨Alignment.left, false, "A"⟩, ⟨Alignment.right, false, "B"⟩]
          ["x", "yy"] false true none 0 :=
  (renderTable_layout
      [⟨Alignment.left, false, "A"⟩, ⟨Alignment.right, false, "B"⟩]
      ["x", "yy"] false true none (by simp) rfl).2.1 0 0
    (by decide) (by decide)

end IceQuery
